import Mathlib

/-!
Shallow embedding of the core utility functions of leptonica `src/utils1.c`
(primality testing, gray-code conversion, 64-bit string hashing, fractional
file corruption, exact byte replacement, and random interval draws), together
with theorems checking the specification claims against the embedded code.

Conventions of the embedding:
- machine integers are modelled as `Nat` or `Int`, with `% 2 ^ 64` where the C
  code relies on unsigned 64-bit wraparound;
- the `l_float32` and `l_float64` parameters of the corruption and random
  interval functions are modelled as exact rationals, and a C cast of a
  nonnegative floating value to an integer type is modelled as `Int.floor`
  (truncation toward zero coincides with floor for nonnegative values);
- `(l_uint64)sqrt((l_float64)n)` is modelled as `Nat.sqrt n`, which agrees with
  the correctly rounded double sqrt truncated to an integer for every `n` in
  the 32-bit range relevant here;
- file contents are lists of byte values; out-parameters and error returns are
  modelled with `Option` (`none` is the error return 1);
- the process PRNG is modelled by an oracle: the sequence of values drawn is an
  explicit argument.
-/

set_option maxRecDepth 8000

/-! ### Definitions: the embedded code
(the three lemmas before `findNextLargerPrime` establish the totality of
its unbounded scan) -/

/-- Candidate trial divisors of `lept_isPrime`: the loop
`for (div = 3; div < limit; div += 2)` visits exactly the odd values
`d = 3 + 2 * i` with `d < limit`, i.e. `i < (limit - 2) / 2`. -/
def divisorCandidates (limit : ℕ) : List ℕ := List.range' 3 ((limit - 2) / 2) 2

/-- Embedding of `lept_isPrime` from utils1.c. Returns `none` for the error
return (n = 0), otherwise `some (is_prime, factor)`, where `factor` keeps its
initialisation 0 unless the even shortcut or the trial-division loop sets it.
The loop body tests `ratio * div == n` with `ratio = n / div`, i.e. exact
divisibility; the first divisor found is returned. -/
def lept_isPrime (n : ℕ) : Option (Bool × ℕ) :=
  if n = 0 then none
  else if n % 2 = 0 then some (false, 2)
  else
    match (divisorCandidates (Nat.sqrt n)).find? (fun d => n / d * d == n) with
    | some d => some (false, d)
    | none => some (true, 0)

/-- The is_prime flag that `lept_isPrime` reports for `n` (false on error). -/
def isPrimeClassified (n : ℕ) : Bool :=
  match lept_isPrime n with
  | some (b, _) => b
  | none => false

theorem mem_divisorCandidates {d limit : ℕ} :
    d ∈ divisorCandidates limit ↔ 3 ≤ d ∧ d < limit ∧ d % 2 = 1 := by
  simp only [divisorCandidates, List.mem_range']
  constructor
  · rintro ⟨i, hi, rfl⟩
    omega
  · rintro ⟨h3, hl, hodd⟩
    exact ⟨(d - 3) / 2, by omega, by omega⟩

/-- Every actual prime `q ≥ 3` is classified prime by `lept_isPrime`: it is
odd, and no trial divisor in `[3, sqrt q)` divides it. -/
theorem prime_classified {q : ℕ} (hq : q.Prime) (h3 : 3 ≤ q) :
    isPrimeClassified q = true := by
  have hodd : q % 2 = 1 := by
    have := hq.odd_of_ne_two (by omega)
    rw [Nat.odd_iff] at this
    exact this
  have hfind : (divisorCandidates (Nat.sqrt q)).find? (fun d => q / d * d == q) = none := by
    apply List.find?_eq_none.mpr
    intro d hd
    rw [mem_divisorCandidates] at hd
    simp only [beq_iff_eq]
    intro heq
    have hdvd : d ∣ q := Dvd.intro_left (q / d) heq
    rcases Nat.Prime.eq_one_or_self_of_dvd hq d hdvd with h1 | h1
    · omega
    · have := Nat.sqrt_lt_self (show 1 < q by omega)
      omega
  unfold isPrimeClassified lept_isPrime
  rw [if_neg (by omega), if_neg (by omega), hfind]

/-- Above every bound there is a number classified prime (any genuine prime
at distance at least 3 works), so the scan of `findNextLargerPrime`
terminates. -/
theorem exists_classified_gt (s : ℕ) : ∃ p, s < p ∧ isPrimeClassified p = true := by
  obtain ⟨q, hq3, hqp⟩ := Nat.exists_infinite_primes (s + 3)
  exact ⟨q, by omega, prime_classified hqp (by omega)⟩

/-- Embedding of `findNextLargerPrime` from utils1.c: error for start = 0
(`start <= 0` in C); otherwise the loop `for (i = start + 1; ; i++)` returns
the first `i` whose `lept_isPrime` flag is set, i.e. the least classified
prime above `start`. -/
def findNextLargerPrime (start : ℕ) : Option ℕ :=
  if start = 0 then none
  else some (Nat.find (exists_classified_gt start))

/-- Embedding of `convertIntToGrayCode`: `(val >> 1) ^ val`. -/
def convertIntToGrayCode (val : ℕ) : ℕ := (val >>> 1) ^^^ val

/-- One iteration `val ^= val >> shift` of the decode loop. -/
def grayStep (val shift : ℕ) : ℕ := val ^^^ (val >>> shift)

/-- Embedding of `convertGrayCodeToInt`: the loop
`for (shift = 1; shift < 32; shift <<= 1) val ^= val >> shift`
runs for shift = 1, 2, 4, 8, 16. -/
def convertGrayCodeToInt (val : ℕ) : ℕ := [1, 2, 4, 8, 16].foldl grayStep val

/-- XOR of the right shifts `g >>> 0, …, g >>> (n-1)`. -/
def xorShifts (g : ℕ) : ℕ → ℕ
  | 0 => 0
  | n + 1 => xorShifts g n ^^^ (g >>> n)

/-- Conversion of one string character to `l_uint64` as performed by
`hash += (*str++ * mulp) ...`: the code reads `*str` through a plain
`const char *` with no unsigned cast (unlike `l_hashStringToUint64Fast`,
which casts to `l_uint8 *`). On the library's primary platforms plain char
is signed, so a byte `b ≥ 0x80` is the negative value `b - 256` and its
conversion to `l_uint64` yields `(b - 256) mod 2 ^ 64 = 2 ^ 64 - 256 + b`;
a byte `b < 0x80` keeps its value. -/
def charToUint64 (b : ℕ) : ℕ :=
  if b < 128 then b else 2 ^ 64 - 256 + b

/-- One iteration `hash += (*str++ * mulp) ^ (hash >> 7)` of the hashing loop
of `l_hashStringToUint64`, in unsigned 64-bit arithmetic; the character
enters the multiply through `charToUint64` (sign extension for bytes
at or above 0x80). -/
def hashStep (hash b : ℕ) : ℕ :=
  (hash + ((charToUint64 b * 26544357894361247) % 2 ^ 64 ^^^ (hash >>> 7))) % 2 ^ 64

/-- Embedding of `l_hashStringToUint64`: error on the empty string, otherwise
the accumulator starts at 104395301, is updated by `hashStep` for each byte in
order, and the stored result is `hash ^ (hash << 37)` in 64-bit arithmetic. -/
def l_hashStringToUint64 (s : List ℕ) : Option ℕ :=
  if s = [] then none
  else some ((s.foldl hashStep 104395301 ^^^ s.foldl hashStep 104395301 <<< 37) % 2 ^ 64)

/-- Transcription of the per-byte recurrence as the claim words it, with `b`
the unsigned value of the byte:
hash += (b * 26544357894361247) XOR (hash >> 7), byte by byte in order. -/
def specHashBytes : List ℕ → ℕ → ℕ
  | [], hash => hash
  | b :: bs, hash =>
      specHashBytes bs ((hash + ((b * 26544357894361247) % 2 ^ 64 ^^^ (hash >>> 7))) % 2 ^ 64)

/-- The hash as the claim words it: seed 104395301, the unsigned-byte
recurrence of `specHashBytes`, final mix `hash XOR (hash << 37)`; empty input
is an invalid-argument error. -/
def specStringHash (s : List ℕ) : Option ℕ :=
  if s = [] then none
  else some ((specHashBytes s 104395301 ^^^ specHashBytes s 104395301 <<< 37) % 2 ^ 64)

/-- The per-byte recurrence amended for the plain-char read of the source:
each byte enters the multiply through `charToUint64`. -/
def specHashBytesSigned : List ℕ → ℕ → ℕ
  | [], hash => hash
  | b :: bs, hash =>
      specHashBytesSigned bs
        ((hash + ((charToUint64 b * 26544357894361247) % 2 ^ 64 ^^^ (hash >>> 7))) % 2 ^ 64)

/-- The hash of the amended claim: seed 104395301, the sign-extending
recurrence of `specHashBytesSigned`, final mix `hash XOR (hash << 37)`;
empty input is an invalid-argument error. -/
def specStringHashSigned (s : List ℕ) : Option ℕ :=
  if s = [] then none
  else some ((specHashBytesSigned s 104395301 ^^^ specHashBytesSigned s 104395301 <<< 37) % 2 ^ 64)

/-- Shared addressing computation of `fileCorruptByDeletion` and
`fileCorruptByMutation` on a buffer of `total` bytes:
if `loc + size > 1.0` then `size = 1.0 - loc`;
`locb = (l_int32)(loc * total + 0.5)` clamped by `L_MIN(locb, total - 1)`;
`sizeb = (l_int32)(size * total + 0.5)` through `L_MAX(1, sizeb)` and
`L_MIN(sizeb, total - locb)`. The truncating subtraction on `Nat` matches the
size_t behaviour of `total - 1` only at `total = 0`, where both computations
produce `locb = 0`. -/
def corruptAddress (loc size : ℚ) (total : ℕ) : ℕ × ℕ :=
  (min (⌊loc * (total : ℚ) + 1/2⌋.toNat) (total - 1),
   min (max 1 (⌊(if 1 < loc + size then 1 - loc else size) * (total : ℚ) + 1/2⌋.toNat))
     (total - min (⌊loc * (total : ℚ) + 1/2⌋.toNat) (total - 1)))

/-- Embedding of `fileCorruptByDeletion`: argument checks `loc` in [0, 1) and
`size > 0`, then the two copy loops build the prefix `[0, locb)` of the input
followed by its suffix `[locb + sizeb, total)`, i.e. take and drop, since the
clamps give `locb + sizeb ≤ total`. -/
def fileCorruptByDeletion (loc size : ℚ) (data : List ℕ) : Option (List ℕ) :=
  if loc < 0 ∨ 1 ≤ loc then none
  else if size ≤ 0 then none
  else
    some (data.take (corruptAddress loc size data.length).1
      ++ data.drop ((corruptAddress loc size data.length).1 + (corruptAddress loc size data.length).2))

/-- Embedding of `fileCorruptByMutation`: same argument checks and addressing;
the loop `for (i = 0; i < sizeb; i++) data[locb + i] = random byte` overwrites
the addressed region in place; the random bytes drawn from the process PRNG
are supplied by the oracle `rnd`. -/
def fileCorruptByMutation (loc size : ℚ) (data : List ℕ) (rnd : ℕ → ℕ) : Option (List ℕ) :=
  if loc < 0 ∨ 1 ≤ loc then none
  else if size ≤ 0 then none
  else
    some ((List.range (corruptAddress loc size data.length).2).foldl
      (fun d i => d.set ((corruptAddress loc size data.length).1 + i) (rnd i)) data)

/-- A single array store `dataout[i] = v` with its bounds obligation: the C
code performs the store unconditionally, so a store outside the allocated
output buffer is undefined behaviour, modelled as `none`. -/
def writeByte (out : List ℕ) (i v : ℕ) : Option (List ℕ) :=
  if i < out.length then some (out.set i v) else none

/-- A copy loop of `fileReplaceBytes`: for `k = 0, …, m - 1` it reads
`src[g k]` and stores it at `dataout[hIdx k]`; a read or store out of bounds
is undefined behaviour, modelled as `none`. -/
def copyLoop (src : List ℕ) (g hIdx : ℕ → ℕ) (m : ℕ) (out : List ℕ) : Option (List ℕ) :=
  (List.range m).foldlM (fun o k => (src[g k]?).bind fun v => writeByte o (hIdx k) v) out

/-- Embedding of `fileReplaceBytes`. The C code computes
`outbytes = inbytes - nbytes + newsize` in size_t: when
`nbytes > inbytes + newsize` this wraps to a huge value whose allocation
fails and the function returns the error code (modelled `none`). Otherwise
the three copy loops run with unadjusted bounds:
loop 1 copies `datain[i]` to `dataout[i]` for `i < start`;
loop 2 copies `newdata[j]` to `dataout[start + j]` for `j < newsize`;
loop 3 copies `datain[start + nbytes + k]` to `dataout[start + newsize + k]`
for `start + newsize + k < outbytes`. A `NULL` replacement is the empty
list (the code then forces `newsize = 0`). -/
def fileReplaceBytes (start nbytes : ℕ) (newdata data : List ℕ) : Option (List ℕ) :=
  if data.length + newdata.length < nbytes then none
  else
    (copyLoop data (fun i => i) (fun i => i) start
        (List.replicate (data.length + newdata.length - nbytes) 0)).bind fun out1 =>
      (copyLoop newdata (fun j => j) (fun j => start + j) newdata.length out1).bind fun out2 =>
        copyLoop data (fun k => start + nbytes + k) (fun k => start + newdata.length + k)
          (data.length + newdata.length - nbytes - (start + newdata.length)) out2

/-- Embedding of `genRandomIntOnInterval`: error when end < start; otherwise
the stored value is `start + (l_int32)(range * (rand() / RAND_MAX))` with
`range = end - start + 1`, where `r` is the value `rand()` returned (an
integer in `[0, randMax]`). The products and the division are exact here and
the cast of the nonnegative scaled value is `Int.floor`. A positive seed only
reseeds the process PRNG and does not change the formula, so it is not a
parameter of the model. -/
def genRandomIntOnInterval (start e : ℤ) (r randMax : ℕ) : Option ℤ :=
  if e < start then none
  else some (start + ⌊((e : ℚ) - (start : ℚ) + 1) * ((r : ℚ) / (randMax : ℚ))⌋)

/-! ### Theorems -/

/-- Evaluation of the embedded code: `lept_isPrime` classifies 9 as prime,
because `limit = sqrt(9) = 3` and the loop guard `div < limit` fails at
`div = 3` before 3 is ever tested. -/
theorem isPrime9 : lept_isPrime 9 = some (true, 0) := by
  unfold lept_isPrime
  rw [show Nat.sqrt 9 = 3 from by norm_num]
  decide

/-- Evaluation of the embedded code at 3. -/
theorem isPrime3 : lept_isPrime 3 = some (true, 0) := by
  unfold lept_isPrime
  rw [show Nat.sqrt 3 = 1 from by norm_num]
  decide

/-- Evaluation of the embedded code at 21: the loop finds the divisor 3. -/
theorem isPrime21 : lept_isPrime 21 = some (false, 3) := by
  unfold lept_isPrime
  rw [show Nat.sqrt 21 = 4 from by norm_num]
  decide

/-- Evaluation of the embedded code: `findNextLargerPrime 7` returns 9,
since 8 is even and 9 is (mis)classified prime. -/
theorem findNext7 : findNextLargerPrime 7 = some 9 := by
  unfold findNextLargerPrime
  rw [if_neg (by omega)]
  simp only [Option.some.injEq]
  rw [Nat.find_eq_iff]
  constructor
  · refine ⟨by omega, ?_⟩
    unfold isPrimeClassified
    rw [isPrime9]
  · exact (by decide : ∀ n < 9, ¬(7 < n ∧ isPrimeClassified n = true))

/-- Evaluation of the embedded code: `findNextLargerPrime 1` returns 3; the
prime 2 is skipped because the even-number shortcut of `lept_isPrime` reports
it as not prime. -/
theorem findNext1 : findNextLargerPrime 1 = some 3 := by
  unfold findNextLargerPrime
  rw [if_neg (by omega)]
  simp only [Option.some.injEq]
  rw [Nat.find_eq_iff]
  constructor
  · refine ⟨by omega, ?_⟩
    unfold isPrimeClassified
    rw [isPrime3]
  · exact (by decide : ∀ n < 3, ¬(1 < n ∧ isPrimeClassified n = true))

/-- Claim C1: the claim states that lept_isPrime(9) reports not-prime with
smallest factor 3 and that findNextLargerPrime(7) returns 11. The code does
neither: its trial-division loop uses the strict bound `div < limit` with
`limit = sqrt(n)`, so for n = 9 the divisor 3 is never tested, 9 is reported
prime with factor 0, and consequently findNextLargerPrime(7) returns 9, not
11. Only the part about lept_isPrime(4) holds. This theorem evaluates the
embedded code at the failing inputs. -/
theorem lept_isPrime_nine_divergence :
    lept_isPrime 4 = some (false, 2)
      ∧ lept_isPrime 9 = some (true, 0)
      ∧ findNextLargerPrime 7 = some 9 :=
  ⟨by decide, isPrime9, findNext7⟩

/-- Claim C2 (counterexample): as stated, the claim fails at start = 1: the
returned value is 3, yet 2 is a prime strictly between 1 and 3 (the code
classifies 2 as not prime via its even-number shortcut and scans past it). -/
theorem findNextLargerPrime_skips_two_cex :
    findNextLargerPrime 1 = some 3 ∧ 1 < 2 ∧ 2 < 3 ∧ Nat.Prime 2 :=
  ⟨findNext1, by omega, by omega, Nat.prime_two⟩

/-- Claim C2 (amended): for every start ≥ 2, the value returned by
findNextLargerPrime(start) is classified prime by lept_isPrime, and no
integer strictly between start and the returned value is prime. (The
amendment excludes start = 1, where the genuine prime 2 is skipped.) -/
theorem findNextLargerPrime_spec (start : ℕ) (h2 : 2 ≤ start) (p : ℕ)
    (hp : findNextLargerPrime start = some p) :
    isPrimeClassified p = true ∧ ∀ k, start < k → k < p → ¬ Nat.Prime k := by
  unfold findNextLargerPrime at hp
  rw [if_neg (by omega)] at hp
  simp only [Option.some.injEq] at hp
  subst hp
  constructor
  · exact (Nat.find_spec (exists_classified_gt start)).2
  · intro k hk1 hk2 hkp
    exact Nat.find_min (exists_classified_gt start) hk2 ⟨hk1, prime_classified hkp (by omega)⟩

/-- Claim C2 (witness): the amended theorem applied at start = 7, where the
returned value is 9. -/
theorem findNextLargerPrime_spec_witness :
    isPrimeClassified 9 = true :=
  (findNextLargerPrime_spec 7 (by omega) 9 findNext7).1

/-- Claim C10: whenever lept_isPrime succeeds on n > 0, it never reports both
is_prime = 1 and a nonzero factor: a nonzero reported factor comes with
is_prime = 0 and exactly divides n, and is_prime = 1 comes with factor 0. -/
theorem lept_isPrime_factor_invariant (n : ℕ) (hn : 0 < n) (b : Bool) (f : ℕ)
    (h : lept_isPrime n = some (b, f)) :
    (f ≠ 0 → b = false ∧ n % f = 0) ∧ (b = true → f = 0) := by
  unfold lept_isPrime at h
  rw [if_neg (by omega)] at h
  by_cases he : n % 2 = 0
  · rw [if_pos he] at h
    simp only [Option.some.injEq, Prod.mk.injEq] at h
    obtain ⟨rfl, rfl⟩ := h
    exact ⟨fun _ => ⟨rfl, he⟩, by simp⟩
  · rw [if_neg he] at h
    cases hfind : (divisorCandidates (Nat.sqrt n)).find? (fun d => n / d * d == n) with
    | some d =>
      rw [hfind] at h
      simp only [Option.some.injEq, Prod.mk.injEq] at h
      obtain ⟨rfl, rfl⟩ := h
      have hmem := List.mem_of_find?_eq_some hfind
      rw [mem_divisorCandidates] at hmem
      have heq : n / d * d = n := by
        have := List.find?_some hfind
        simpa using this
      have hdvd : d ∣ n := Dvd.intro_left (n / d) heq
      exact ⟨fun _ => ⟨rfl, Nat.dvd_iff_mod_eq_zero.mp hdvd⟩, by simp⟩
    | none =>
      rw [hfind] at h
      simp only [Option.some.injEq, Prod.mk.injEq] at h
      obtain ⟨rfl, rfl⟩ := h
      exact ⟨fun hf0 => absurd rfl hf0, fun _ => rfl⟩

/-- Claim C10 (witness): the invariant applied at n = 21, where the code
reports factor 3. -/
theorem lept_isPrime_factor_invariant_witness :
    ((3 : ℕ) ≠ 0 → false = false ∧ 21 % 3 = 0) ∧ (false = true → (3 : ℕ) = 0) :=
  lept_isPrime_factor_invariant 21 (by omega) false 3 isPrime21

theorem shiftRight_xor (a b k : ℕ) : (a ^^^ b) >>> k = (a >>> k) ^^^ (b >>> k) := by
  apply Nat.eq_of_testBit_eq
  intro i
  simp [Nat.testBit_shiftRight, Nat.testBit_xor]

theorem xorShifts_add (g m : ℕ) :
    ∀ n, xorShifts g (m + n) = xorShifts g m ^^^ (xorShifts g n >>> m) := by
  intro n
  induction n with
  | zero => simp [xorShifts]
  | succ k ih =>
    have hsh : g >>> k >>> m = g >>> (m + k) := by
      rw [← Nat.shiftRight_add, Nat.add_comm]
    show xorShifts g (m + k + 1) = _
    rw [xorShifts, ih, xorShifts, shiftRight_xor, hsh, Nat.xor_assoc]

/-- Telescoping: decoding applied to `a ^^^ (a >>> 1)` accumulates to
`a ^^^ (a >>> n)`. -/
theorem xorShifts_telescope (a : ℕ) :
    ∀ n, xorShifts (a ^^^ (a >>> 1)) n = a ^^^ (a >>> n) := by
  intro n
  induction n with
  | zero => simp [xorShifts]
  | succ k ih =>
    have hsh : a >>> 1 >>> k = a >>> (k + 1) := by
      rw [← Nat.shiftRight_add, Nat.add_comm]
    rw [xorShifts, ih, shiftRight_xor, hsh]
    apply Nat.eq_of_testBit_eq
    intro i
    simp only [Nat.testBit_xor]
    cases a.testBit i <;> cases (a >>> k).testBit i <;> cases (a >>> (k + 1)).testBit i <;> rfl

/-- The five XOR-shift iterations of the decode loop compute the XOR of all
32 right shifts of the input. -/
theorem convertGrayCodeToInt_eq_xorShifts (g : ℕ) :
    convertGrayCodeToInt g = xorShifts g 32 := by
  have hdouble : ∀ n, grayStep (xorShifts g n) n = xorShifts g (n + n) := by
    intro n
    rw [grayStep, xorShifts_add g n n]
  have h2 : grayStep g 1 = xorShifts g 2 := by
    show g ^^^ (g >>> 1) = xorShifts g 2
    simp [xorShifts]
  show grayStep (grayStep (grayStep (grayStep (grayStep g 1) 2) 4) 8) 16 = xorShifts g 32
  rw [h2, hdouble 2, hdouble 4, hdouble 8, hdouble 16]

/-- Claim C9: for every 32-bit value v, the gray-code decode loop exactly
inverts the encoding: convertGrayCodeToInt (convertIntToGrayCode v) = v. -/
theorem grayCode_roundtrip (v : ℕ) (h : v < 2 ^ 32) :
    convertGrayCodeToInt (convertIntToGrayCode v) = v := by
  have henc : convertIntToGrayCode v = v ^^^ (v >>> 1) := Nat.xor_comm _ _
  rw [henc, convertGrayCodeToInt_eq_xorShifts, xorShifts_telescope]
  have h32 : v >>> 32 = 0 := by
    rw [Nat.shiftRight_eq_div_pow]
    exact Nat.div_eq_of_lt h
  rw [h32, Nat.xor_zero]

/-- Claim C9 (witness): the roundtrip theorem evaluated at 3735928559. -/
theorem grayCode_roundtrip_witness :
    convertGrayCodeToInt (convertIntToGrayCode 3735928559) = 3735928559 :=
  grayCode_roundtrip 3735928559 (by norm_num)

theorem foldl_hashStep_eq_signed :
    ∀ (s : List ℕ) (h : ℕ), s.foldl hashStep h = specHashBytesSigned s h := by
  intro s
  induction s with
  | nil => intro h; rfl
  | cons b bs ih =>
    intro h
    rw [List.foldl_cons, specHashBytesSigned, ih]
    rfl

theorem foldl_hashStep_eq_unsigned_of_ascii :
    ∀ (s : List ℕ), (∀ b ∈ s, b < 128) → ∀ (h : ℕ), s.foldl hashStep h = specHashBytes s h := by
  intro s
  induction s with
  | nil => intro _ h; rfl
  | cons b bs ih =>
    intro hb h
    have hb128 : b < 128 := hb b (List.mem_cons_self b bs)
    have hstep : hashStep h b
        = (h + ((b * 26544357894361247) % 2 ^ 64 ^^^ (h >>> 7))) % 2 ^ 64 := by
      unfold hashStep charToUint64
      rw [if_pos hb128]
    rw [List.foldl_cons, specHashBytes, hstep]
    exact ih (fun x hx => hb x (List.mem_cons_of_mem b hx)) _

/-- Claim C6 (counterexample): the claim reads each byte as its unsigned
value, but the code reads `*str` as plain (signed) char with no cast, so the
one-byte string 0x80 enters the multiply as (0x80 - 256) mod 2 ^ 64 and the
stored hash differs from the unsigned-byte recurrence of the claim. -/
theorem l_hashStringToUint64_high_byte_cex :
    l_hashStringToUint64 [128] = some 13713310406120092553
      ∧ specStringHash [128] = some 3495049323387629705
      ∧ (13713310406120092553 : ℕ) ≠ 3495049323387629705 := by
  refine ⟨by decide, by decide, by decide⟩

/-- Claim C6 (amended): for every non-empty string the stored hash is the
seeded per-byte recurrence followed by the final mix
`hash XOR (hash << 37)` in 64-bit unsigned arithmetic, where each byte
enters the multiply as the plain (signed) char converted to unsigned 64-bit:
a byte b < 0x80 contributes b * M and a byte b ≥ 0x80 contributes
((b - 256) mod 2 ^ 64) * M. For strings of 7-bit bytes this coincides with
the recurrence exactly as the claim words it. The empty or null string fails
with an invalid-argument error. -/
theorem l_hashStringToUint64_signed_spec (s : List ℕ) :
    l_hashStringToUint64 s = specStringHashSigned s
      ∧ ((∀ b ∈ s, b < 128) → l_hashStringToUint64 s = specStringHash s)
      ∧ l_hashStringToUint64 [] = none := by
  refine ⟨?_, ?_, rfl⟩
  · unfold l_hashStringToUint64 specStringHashSigned
    rw [foldl_hashStep_eq_signed]
  · intro hb
    unfold l_hashStringToUint64 specStringHash
    rw [foldl_hashStep_eq_unsigned_of_ascii s hb]

/-- Claim C6 (witness): the amended theorem applied to the concrete 7-bit
string of bytes 104, 105, where the code agrees with the unsigned-byte
recurrence of the claim. -/
theorem l_hashStringToUint64_signed_spec_witness :
    l_hashStringToUint64 [104, 105] = specStringHash [104, 105] :=
  (l_hashStringToUint64_signed_spec [104, 105]).2.1 (by decide)

/-- Claim C3: for every valid call of the deletion or mutation corruptors
(loc in [0,1), size > 0, nonempty input), the effective size is first reduced
to 1 - loc when loc + size exceeds 1; the byte offset used is
round-half-up(loc * total) clamped to [0, total - 1]; the byte count used is
max(1, round-half-up(size * total)) further clamped so that
offset + count ≤ total; and both functions operate on exactly this offset and
count. (Offsets are nonnegative by construction since loc ≥ 0.) -/
theorem corruptAddress_formula (loc size : ℚ) (total : ℕ) (h0 : 0 ≤ loc) (h1 : loc < 1)
    (h2 : 0 < size) (h3 : 1 ≤ total) (data : List ℕ) (hlen : data.length = total)
    (rnd : ℕ → ℕ) :
    (corruptAddress loc size total).1 = min (⌊loc * (total : ℚ) + 1/2⌋.toNat) (total - 1)
      ∧ (corruptAddress loc size total).1 ≤ total - 1
      ∧ (corruptAddress loc size total).2
          = min (max 1 (⌊(if 1 < loc + size then 1 - loc else size) * (total : ℚ) + 1/2⌋.toNat))
              (total - (corruptAddress loc size total).1)
      ∧ 1 ≤ (corruptAddress loc size total).2
      ∧ (corruptAddress loc size total).1 + (corruptAddress loc size total).2 ≤ total
      ∧ fileCorruptByDeletion loc size data
          = some (data.take (corruptAddress loc size total).1
              ++ data.drop ((corruptAddress loc size total).1 + (corruptAddress loc size total).2))
      ∧ fileCorruptByMutation loc size data rnd
          = some ((List.range (corruptAddress loc size total).2).foldl
              (fun d i => d.set ((corruptAddress loc size total).1 + i) (rnd i)) data) := by
  have hfst : (corruptAddress loc size total).1
      = min (⌊loc * (total : ℚ) + 1/2⌋.toNat) (total - 1) := rfl
  have hle : (corruptAddress loc size total).1 ≤ total - 1 := by
    rw [hfst]
    exact min_le_right _ _
  have hsnd : (corruptAddress loc size total).2
      = min (max 1 (⌊(if 1 < loc + size then 1 - loc else size) * (total : ℚ) + 1/2⌋.toNat))
          (total - (corruptAddress loc size total).1) := rfl
  have hcle : (corruptAddress loc size total).2 ≤ total - (corruptAddress loc size total).1 := by
    rw [hsnd]
    exact min_le_right _ _
  refine ⟨hfst, hle, hsnd, ?_, ?_, ?_, ?_⟩
  · rw [hsnd]
    exact le_min (le_max_left _ _) (by omega)
  · omega
  · unfold fileCorruptByDeletion
    rw [if_neg (by push_neg; exact ⟨h0, h1⟩), if_neg (by push_neg; exact h2), hlen]
  · unfold fileCorruptByMutation
    rw [if_neg (by push_neg; exact ⟨h0, h1⟩), if_neg (by push_neg; exact h2), hlen]

/-- Claim C3 (witness): the addressing theorem applied at loc = 1/2,
size = 1/5 on a 100-byte buffer. -/
theorem corruptAddress_formula_witness :
    (corruptAddress (1/2) (1/5) 100).1 + (corruptAddress (1/2) (1/5) 100).2 ≤ 100 :=
  (corruptAddress_formula (1/2) (1/5) 100 (by norm_num) (by norm_num) (by norm_num)
    (by norm_num) (List.replicate 100 0) (by simp) (fun k => k)).2.2.2.2.1

theorem mutateFold_length (locb : ℕ) (rnd : ℕ → ℕ) :
    ∀ (sizeb : ℕ) (data : List ℕ),
      ((List.range sizeb).foldl (fun d i => d.set (locb + i) (rnd i)) data).length
        = data.length := by
  intro sizeb
  induction sizeb with
  | zero => intro data; rfl
  | succ n ih =>
    intro data
    rw [List.range_succ, List.foldl_append, List.foldl_cons, List.foldl_nil,
      List.length_set]
    exact ih data

theorem mutateFold_frame (locb : ℕ) (rnd : ℕ → ℕ) :
    ∀ (sizeb : ℕ) (data : List ℕ) (j : ℕ), j < locb ∨ locb + sizeb ≤ j →
      ((List.range sizeb).foldl (fun d i => d.set (locb + i) (rnd i)) data)[j]?
        = data[j]? := by
  intro sizeb
  induction sizeb with
  | zero => intro data j _; rfl
  | succ n ih =>
    intro data j hj
    rw [List.range_succ, List.foldl_append, List.foldl_cons, List.foldl_nil,
      List.getElem?_set_ne (by omega)]
    exact ih data j (by omega)

/-- Claim C8: whenever fileCorruptByMutation succeeds with valid arguments,
the output has the same length as the input, and every byte outside the
addressed region [offset, offset + count) is unchanged (stated on optional
indexing, which also covers out-of-range positions). -/
theorem fileCorruptByMutation_frame (loc size : ℚ) (data : List ℕ) (rnd : ℕ → ℕ)
    (out : List ℕ) (h0 : 0 ≤ loc) (h1 : loc < 1) (h2 : 0 < size)
    (hout : fileCorruptByMutation loc size data rnd = some out) :
    out.length = data.length
      ∧ ∀ j, j < (corruptAddress loc size data.length).1
          ∨ (corruptAddress loc size data.length).1
            + (corruptAddress loc size data.length).2 ≤ j →
        out[j]? = data[j]? := by
  unfold fileCorruptByMutation at hout
  rw [if_neg (by push_neg; exact ⟨h0, h1⟩), if_neg (by push_neg; exact h2)] at hout
  simp only [Option.some.injEq] at hout
  subst hout
  exact ⟨mutateFold_length _ _ _ _, fun j hj => mutateFold_frame _ _ _ _ j hj⟩

/-- Evaluation of the addressing at loc = 1/2, size = 1/5, total = 100. -/
theorem corruptAddress_at_100 : corruptAddress (1/2) (1/5) 100 = (50, 20) := by
  unfold corruptAddress
  norm_num
  omega

/-- Evaluation of the addressing at loc = 1/2, size = 1/5, total = 4. -/
theorem corruptAddress_at_4 : corruptAddress (1/2) (1/5) 4 = (2, 1) := by
  unfold corruptAddress
  norm_num
  omega

/-- Evaluation of the embedded mutation on a concrete 4-byte buffer with the
constant random oracle 9: exactly the addressed byte changes. -/
theorem fileCorruptByMutation_example :
    fileCorruptByMutation (1/2) (1/5) [1, 2, 3, 4] (fun _ => 9) = some [1, 2, 9, 4] := by
  unfold fileCorruptByMutation
  rw [if_neg (by norm_num), if_neg (by norm_num),
    show (List.length [1, 2, 3, 4] : ℕ) = 4 from rfl, corruptAddress_at_4]
  rfl

/-- Claim C8 (witness): the frame theorem applied to the concrete mutation
of a 4-byte buffer. -/
theorem fileCorruptByMutation_frame_witness :
    ([1, 2, 9, 4] : List ℕ).length = ([1, 2, 3, 4] : List ℕ).length :=
  (fileCorruptByMutation_frame (1/2) (1/5) [1, 2, 3, 4] (fun _ => 9) [1, 2, 9, 4]
    (by norm_num) (by norm_num) (by norm_num) fileCorruptByMutation_example).1

/-- Claim C7: on every 100-byte input, fileCorruptByDeletion with loc = 0.5
and size = 0.2 computes offset 50 and count 20 and returns the 80-byte output
made of input bytes [0, 50) followed by input bytes [70, 100). -/
theorem fileCorruptByDeletion_hundred (data : List ℕ) (h : data.length = 100) :
    corruptAddress (1/2) (1/5) data.length = (50, 20)
      ∧ fileCorruptByDeletion (1/2) (1/5) data = some (data.take 50 ++ data.drop 70)
      ∧ (data.take 50 ++ data.drop 70).length = 80 := by
  refine ⟨by rw [h]; exact corruptAddress_at_100, ?_, ?_⟩
  · unfold fileCorruptByDeletion
    rw [if_neg (by norm_num), if_neg (by norm_num), h, corruptAddress_at_100]
    rfl
  · rw [List.length_append, List.length_take, List.length_drop, h]
    omega

/-- Claim C7 (witness): the deletion theorem applied to the concrete
100-byte buffer `List.range 100`. -/
theorem fileCorruptByDeletion_hundred_witness :
    fileCorruptByDeletion (1/2) (1/5) (List.range 100)
      = some ((List.range 100).take 50 ++ (List.range 100).drop 70) :=
  (fileCorruptByDeletion_hundred (List.range 100) (by simp)).2.1

theorem writeByte_length {out : List ℕ} {i v : ℕ} {out2 : List ℕ}
    (h : writeByte out i v = some out2) : out2.length = out.length := by
  unfold writeByte at h
  split at h
  · simp only [Option.some.injEq] at h
    subst h
    exact List.length_set out i v
  · cases h

theorem writeByte_lt {out : List ℕ} {i v : ℕ} {out2 : List ℕ}
    (h : writeByte out i v = some out2) : i < out.length := by
  unfold writeByte at h
  split at h
  · assumption
  · cases h

theorem copyLoop_succ (src : List ℕ) (g hIdx : ℕ → ℕ) (m : ℕ) (out : List ℕ) :
    copyLoop src g hIdx (m + 1) out
      = (copyLoop src g hIdx m out).bind
          (fun o => (src[g m]?).bind fun v => writeByte o (hIdx m) v) := by
  unfold copyLoop
  rw [List.range_succ, List.foldlM_append]
  simp

theorem copyLoop_length (src : List ℕ) (g hIdx : ℕ → ℕ) :
    ∀ (m : ℕ) (out out2 : List ℕ), copyLoop src g hIdx m out = some out2 →
      out2.length = out.length := by
  intro m
  induction m with
  | zero =>
    intro out out2 h
    injection h with h
    rw [← h]
  | succ n ih =>
    intro out out2 h
    rw [copyLoop_succ] at h
    rcases Option.bind_eq_some.mp h with ⟨mid, hmid, hstep⟩
    rcases Option.bind_eq_some.mp hstep with ⟨v, hv, hw⟩
    rw [writeByte_length hw]
    exact ih out mid hmid

theorem copyLoop_bounds (src : List ℕ) (g hIdx : ℕ → ℕ) :
    ∀ (m : ℕ) (out out2 : List ℕ), copyLoop src g hIdx m out = some out2 →
      ∀ k, k < m → g k < src.length ∧ hIdx k < out.length := by
  intro m
  induction m with
  | zero =>
    intro out out2 h k hk
    exact absurd hk (by omega)
  | succ n ih =>
    intro out out2 h k hk
    rw [copyLoop_succ] at h
    rcases Option.bind_eq_some.mp h with ⟨mid, hmid, hstep⟩
    rcases Option.bind_eq_some.mp hstep with ⟨v, hv, hw⟩
    rcases Nat.lt_succ_iff_lt_or_eq.mp hk with hk2 | rfl
    · exact ih out mid hmid k hk2
    · constructor
      · by_contra hge
        rw [List.getElem?_eq_none (by omega)] at hv
        cases hv
      · have hlt := writeByte_lt hw
        rwa [copyLoop_length src g hIdx k out mid hmid] at hlt

/-- Claim C5: the claim states that when start + nbytes exceeds the input
length the function only warns and still completes successfully using the
available bytes. The code does warn, but it never adjusts the loop bounds:
for every such call the model aborts, either because the wrapped output size
cannot be allocated or because a copy loop accesses past the end of the
input or output buffer (undefined behaviour in C, `none` here). -/
theorem fileReplaceBytes_overrun_fails (start nbytes : ℕ) (newdata data : List ℕ)
    (hover : data.length < start + nbytes) :
    fileReplaceBytes start nbytes newdata data = none := by
  unfold fileReplaceBytes
  by_cases hwrap : data.length + newdata.length < nbytes
  · rw [if_pos hwrap]
  · rw [if_neg hwrap]
    cases h1 : copyLoop data (fun i => i) (fun i => i) start
        (List.replicate (data.length + newdata.length - nbytes) 0) with
    | none => rfl
    | some out1 =>
      have hlen1 := copyLoop_length _ _ _ _ _ _ h1
      rw [List.length_replicate] at hlen1
      rw [Option.some_bind]
      cases h2 : copyLoop newdata (fun j => j) (fun j => start + j) newdata.length out1 with
      | none => rfl
      | some out2 =>
        exfalso
        rcases Nat.eq_zero_or_pos newdata.length with hns | hns
        · rcases Nat.eq_zero_or_pos start with hs | hs
          · omega
          · have hb := (copyLoop_bounds _ _ _ _ _ _ h1 (start - 1) (by omega)).2
            rw [List.length_replicate] at hb
            omega
        · have hb := (copyLoop_bounds _ _ _ _ _ _ h2 (newdata.length - 1) (by omega)).2
          rw [hlen1] at hb
          omega

/-- Claim C5 (witness): a 2-byte input with start = 3, nbytes = 1 and empty
replacement satisfies the warning condition and the call fails: the first
copy loop runs past both buffers. -/
theorem fileReplaceBytes_overrun_fails_witness :
    fileReplaceBytes 3 1 [] [10, 20] = none :=
  fileReplaceBytes_overrun_fails 3 1 [] [10, 20] (by decide)

/-- Claim C4: the claim states the stored value always lies in [start, end]
for every possible PRNG output, and in particular that the degenerate call
with start = end = 5 always stores 5. But when rand() returns RAND_MAX the
ratio rand()/RAND_MAX is exactly 1, the scaled value reaches
end - start + 1, and the stored value is end + 1: with start = end = 5 and
RAND_MAX = 2147483647 the call stores 6, outside [5, 5]. -/
theorem genRandomIntOnInterval_overflow_bug :
    genRandomIntOnInterval 5 5 2147483647 2147483647 = some 6 ∧ (6 : ℤ) ≠ 5 := by
  constructor
  · unfold genRandomIntOnInterval
    rw [if_neg (by omega)]
    simp only [Option.some.injEq]
    norm_num
  · omega
